import Mathlib

/-!
Shallow embedding of the GROMACS command front end in
`src/gromacsagent/gmx_validation.py`: the PLY lexer (`GromacsLexer`), the
yacc grammar (`GromacsParser`), the per-command validator
(`GromacsCommandValidator`) and the pipeline-sequence validator
(`validate_gromacs_sequence`), together with theorems settling the frozen
claims about them.

Python floats (produced by `float(...)` in the `t_NUMBER` rule) are modelled
as exact rationals; no claim depends on IEEE rounding.
-/

set_option maxHeartbeats 1600000

/-! ## String utilities (Python `in`, `str.lower`) -/

/-- Test whether `needle` is a leading segment of `hay` (character lists). -/
def isPrefixOfL : List Char → List Char → Bool
  | [], _ => true
  | _ :: _, [] => false
  | n :: ns, h :: hs => n == h && isPrefixOfL ns hs

/-- Python's substring test `needle in hay`, on character lists: `needle`
occurs contiguously somewhere in `hay`. -/
def substrB (needle : List Char) : List Char → Bool
  | [] => needle.isEmpty
  | c :: t => isPrefixOfL needle (c :: t) || substrB needle t

/-- Python's `needle in hay` on strings. -/
def strContains (hay needle : String) : Bool := substrB needle.data hay.data

/-- Python's `str.lower()` (ASCII inputs). -/
def lowerStr (s : String) : String := String.mk (s.data.map Char.toLower)

/-! ## Tokens (`GromacsLexer.tokens`) -/

/-- A token of the GROMACS command lexer.  `NUMBER` carries the value of
Python's `float(...)` (modelled as an exact rational), `INTEGER` the value of
`int(...)`; the other value-carrying tokens hold the matched text (for
`STRING`, with surrounding quotes already stripped). -/
inductive Token where
  | GMX : Token
  | COMMAND : String → Token
  | FLAG : String → Token
  | FILENAME : String → Token
  | STRING : String → Token
  | NUMBER : ℚ → Token
  | INTEGER : ℤ → Token
  | LPAREN : Token
  | RPAREN : Token
deriving DecidableEq

/-- `GromacsLexer.commands`: the fixed known-command set. -/
def commands : List String :=
  ["pdb2gmx", "editconf", "solvate", "grompp", "mdrun", "energy",
   "trjconv", "rms", "rmsf", "gyrate", "distance", "angle",
   "mindist", "hbond", "sasa", "cluster", "density", "potential",
   "genion", "genrestr", "make_ndx", "do_dssp", "rama"]

/-- Character class `[a-zA-Z0-9_/\-]` of the `t_FILENAME` rule. -/
def isFnameChar (c : Char) : Bool :=
  c.isAlpha || c.isDigit || c == '_' || c == '/' || c == '-'

/-- First character `[a-zA-Z_]` of a bare identifier in `t_STRING`. -/
def isIdentStart (c : Char) : Bool := c.isAlpha || c == '_'

/-- Continuation characters `[a-zA-Z0-9_]` of a bare identifier. -/
def isIdentChar (c : Char) : Bool := c.isAlpha || c.isDigit || c == '_'

/-- Lexer rule `t_FLAG`, regex `-[a-zA-Z][a-zA-Z0-9]*`: returns the matched
lexeme and the remaining input. -/
def t_FLAG : List Char → Option (String × List Char)
  | '-' :: c :: rest =>
      if c.isAlpha then
        let p := rest.span (fun d => d.isAlpha || d.isDigit)
        some (String.mk ('-' :: c :: p.1), p.2)
      else none
  | _ => none

/-- File-extension whitelist of the `t_FILENAME` regex, in source order. -/
def extensions : List String :=
  ["pdb", "gro", "top", "mdp", "tpr", "xtc", "trr", "edr", "cpt", "xvg",
   "ndx", "itp", "dat", "log", "out", "tng", "pqr"]

/-- Lexer rule `t_FILENAME`, regex `[a-zA-Z0-9_/\-]+\.(pdb|gro|...)`: a
maximal nonempty run of filename characters, a dot, then one whitelisted
extension (all extensions have length 3, so regex-alternation order cannot
matter). -/
def t_FILENAME (l : List Char) : Option (String × List Char) :=
  let p := l.span isFnameChar
  match p.1, p.2 with
  | [], _ => none
  | body, '.' :: rest =>
      match extensions.find? (fun e => isPrefixOfL e.data rest) with
      | some e => some (String.mk (body ++ '.' :: e.data), rest.drop e.data.length)
      | none => none
  | _, _ => none

/-- Value of a digit run, most significant first. -/
def digitsVal (ds : List Char) : ℕ :=
  ds.foldl (fun a c => 10 * a + (c.toNat - 48)) 0

/-- The optional exponent group `([eE][+-]?\d+)?` of `t_NUMBER`: returns the
exponent's sign and digit value and the remaining input (consuming nothing
when the group does not match). -/
def matchExponent (l : List Char) : Bool × ℕ × List Char :=
  match l with
  | c :: rest =>
      if c == 'e' || c == 'E' then
        let sp := match rest with
          | '+' :: r => ((false : Bool), r)
          | '-' :: r => ((true : Bool), r)
          | _ => ((false : Bool), rest)
        let p := sp.2.span Char.isDigit
        if p.1.isEmpty then ((false : Bool), 0, l)
        else (sp.1, digitsVal p.1, p.2)
      else ((false : Bool), 0, l)
  | [] => ((false : Bool), 0, l)

/-- The exact rational value of the float literal with optional sign, integer
part `ipart`, fraction digits of value `fpart` and count `flen`, and optional
exponent: `±(ipart.fpart) · 10^±expVal` (Python's `float(...)`, modelled
exactly; claims do not depend on IEEE rounding). -/
def floatVal (sign : Bool) (ipart fpart flen : ℕ) (expNeg : Bool) (expVal : ℕ) : ℚ :=
  let m : ℤ := ((ipart * 10 ^ flen + fpart : ℕ) : ℤ)
  let m : ℤ := if sign then -m else m
  if expNeg then
    Rat.normalize m (10 ^ (flen + expVal)) (Nat.pos_pow_of_pos _ (by decide)).ne'
  else
    Rat.normalize (m * 10 ^ expVal) (10 ^ flen) (Nat.pos_pow_of_pos _ (by decide)).ne'

/-- Lexer rule `t_NUMBER`, regex `-?\d+\.\d+([eE][+-]?\d+)?`, with Python's
`float(...)` modelled as the exact rational value. -/
def t_NUMBER (l : List Char) : Option (ℚ × List Char) :=
  let sp := match l with
    | '-' :: r => ((true : Bool), r)
    | _ => ((false : Bool), l)
  let d1 := sp.2.span Char.isDigit
  if d1.1.isEmpty then none
  else
    match d1.2 with
    | '.' :: l3 =>
        let d2 := l3.span Char.isDigit
        if d2.1.isEmpty then none
        else
          let ex := matchExponent d2.2
          some (floatVal sp.1 (digitsVal d1.1) (digitsVal d2.1) d2.1.length ex.1 ex.2.1,
            ex.2.2)
    | _ => none

/-- Lexer rule `t_INTEGER`, regex `-?\d+`, with Python's `int(...)` value. -/
def t_INTEGER (l : List Char) : Option (ℤ × List Char) :=
  let sp := match l with
    | '-' :: r => ((true : Bool), r)
    | _ => ((false : Bool), l)
  let d := sp.2.span Char.isDigit
  if d.1.isEmpty then none
  else some ((if sp.1 then -(digitsVal d.1 : ℤ) else (digitsVal d.1 : ℤ)), d.2)

/-- The post-match reclassification done at the end of `t_STRING`: the word
`gmx` becomes the `GMX` keyword token, a member of `commands` becomes a
`COMMAND` token, anything else stays a generic `STRING` token. -/
def classifyBare (w : String) : Token :=
  if w == "gmx" then Token.GMX
  else if commands.contains w then Token.COMMAND w
  else Token.STRING w

/-- Lexer rule `t_STRING`, regex `"[^"]*"|'[^']*'|[a-zA-Z_][a-zA-Z0-9_]*`:
a double- or single-quoted literal keeps type `STRING` with the quotes
stripped (returning early, before reclassification); a bare identifier is
reclassified by `classifyBare`. -/
def t_STRING (l : List Char) : Option (Token × List Char) :=
  match l with
  | [] => none
  | c :: rest =>
      if c == '"' then
        match rest.span (fun d => d != '"') with
        | (body, '"' :: r2) => some (Token.STRING (String.mk body), r2)
        | _ => none
      else if c == '\'' then
        match rest.span (fun d => d != '\'') with
        | (body, '\'' :: r2) => some (Token.STRING (String.mk body), r2)
        | _ => none
      else if isIdentStart c then
        some (classifyBare (String.mk (c :: (rest.span isIdentChar).1)),
          (rest.span isIdentChar).2)
      else none

/-- One lexing step at the current position: the token rules are tried in
their order of definition in the source (`t_FLAG`, `t_LPAREN`, `t_RPAREN`,
`t_FILENAME`, `t_NUMBER`, `t_INTEGER`, `t_STRING`), and the first rule whose
regex matches wins. -/
def lexOne (l : List Char) : Option (Token × List Char) :=
  match t_FLAG l with
  | some p => some (Token.FLAG p.1, p.2)
  | none =>
    match l with
    | '(' :: r => some (Token.LPAREN, r)
    | ')' :: r => some (Token.RPAREN, r)
    | _ =>
      match t_FILENAME l with
      | some p => some (Token.FILENAME p.1, p.2)
      | none =>
        match t_NUMBER l with
        | some p => some (Token.NUMBER p.1, p.2)
        | none =>
          match t_INTEGER l with
          | some p => some (Token.INTEGER p.1, p.2)
          | none => t_STRING l

/-- The lexer loop (`GromacsLexer.tokenize`): spaces and tabs are `t_ignore`d,
newlines are consumed by `t_newline` without producing a token, and an
illegal character is skipped (`t_error` calls `t.lexer.skip(1)`).  Every step
consumes at least one character, so fuel equal to the input length is exact. -/
def tokenizeAux : Nat → List Char → List Token
  | 0, _ => []
  | _ + 1, [] => []
  | fuel + 1, c :: cs =>
      if c == ' ' || c == '\t' || c == '\n' then tokenizeAux fuel cs
      else
        match lexOne (c :: cs) with
        | some p => p.1 :: tokenizeAux fuel p.2
        | none => tokenizeAux fuel cs

/-- Tokenize a command string. -/
def tokenize (s : String) : List Token := tokenizeAux s.data.length s.data

/-! ## Parsed values and commands (`GromacsParser` data) -/

/-- A member of a vector literal: `p_number_value` yields the value of a
`NUMBER` (float) or `INTEGER` token. -/
inductive NumVal where
  | nfloat : ℚ → NumVal
  | nint : ℤ → NumVal
deriving DecidableEq

/-- A Python value stored in the options dict: a (filename or generic)
string, a float, an integer, a vector literal's number list, or the
`True` stored for a flag without a value. -/
inductive PyVal where
  | vstr : String → PyVal
  | vfloat : ℚ → PyVal
  | vint : ℤ → PyVal
  | vlist : List NumVal → PyVal
  | vbool : Bool → PyVal
deriving DecidableEq

/-- The dict built by `p_command` / `p_command_no_options`:
`{'type': 'gromacs_command', 'command': ..., 'options': ...}`.  The options
dict is modelled as an association list in insertion order with unique keys
(exactly Python's dict). -/
structure ParsedCommand where
  type : String
  command : String
  options : List (String × PyVal)
deriving DecidableEq

/-- What `p_error` receives on a syntax error: the offending token, or
`None` at end of input (printed as `Syntax error at EOF`). -/
inductive ParseFailure where
  | unexpected : Token → ParseFailure
  | eof : ParseFailure
deriving DecidableEq

/-- Python dict update `{**d, **{k: v}}` as performed by `p_options`: if the
key is present its value is overwritten in place, otherwise the pair is
appended. -/
def dictInsert (d : List (String × PyVal)) (k : String) (v : PyVal) :
    List (String × PyVal) :=
  if d.any (fun p => p.1 == k) then
    d.map (fun p => if p.1 == k then (k, v) else p)
  else d ++ [(k, v)]

/-- Python dict lookup `d.get(k)`. -/
def dictGet (d : List (String × PyVal)) (k : String) : Option PyVal :=
  (d.find? (fun p => p.1 == k)).map Prod.snd

/-- The options dict produced by reducing `options : option | options option`
left to right over the raw `(flag, value)` pairs. -/
def buildOptions (raw : List (String × PyVal)) : List (String × PyVal) :=
  raw.foldl (fun d p => dictInsert d p.1 p.2) []

/-- LALR state of the options part of the grammar: at the top level between
options, right after a flag (a value may or may not follow), or inside a
parenthesised `number_list`. -/
inductive OptState where
  | top : OptState
  | afterFlag : String → OptState
  | inVector : String → List NumVal → OptState

/-- The options/value/vector part of the LALR parser built by yacc from
`p_options`, `p_option`, `p_option_flag_only`, `p_value`, `p_vector`,
`p_number_list`, `p_number_value`.  The grammar is deterministic: after a
`FLAG`, a following value-starting token (`FILENAME`, `STRING`, `NUMBER`,
`INTEGER`, `LPAREN`) is shifted as the flag's value, anything else makes the
flag a `Boolean(true)` option (`p_option_flag_only`); inside a vector only
numbers and the closing `RPAREN` (after at least one number) are accepted.
Any other token is a syntax error carrying that token, and exhausted input
inside an open construct is a syntax error at EOF.  Returns the raw ordered
`(flag, value)` list. -/
def scanOptionsAux : OptState → List Token → Except ParseFailure (List (String × PyVal))
  | OptState.top, [] => Except.ok []
  | OptState.top, Token.FLAG f :: rest => scanOptionsAux (OptState.afterFlag f) rest
  | OptState.top, t :: _ => Except.error (ParseFailure.unexpected t)
  | OptState.afterFlag f, [] => Except.ok [(f, PyVal.vbool true)]
  | OptState.afterFlag f, Token.FILENAME s :: rest =>
      (scanOptionsAux OptState.top rest).map (fun l => (f, PyVal.vstr s) :: l)
  | OptState.afterFlag f, Token.STRING s :: rest =>
      (scanOptionsAux OptState.top rest).map (fun l => (f, PyVal.vstr s) :: l)
  | OptState.afterFlag f, Token.NUMBER q :: rest =>
      (scanOptionsAux OptState.top rest).map (fun l => (f, PyVal.vfloat q) :: l)
  | OptState.afterFlag f, Token.INTEGER z :: rest =>
      (scanOptionsAux OptState.top rest).map (fun l => (f, PyVal.vint z) :: l)
  | OptState.afterFlag f, Token.LPAREN :: rest =>
      scanOptionsAux (OptState.inVector f []) rest
  | OptState.afterFlag f, Token.FLAG g :: rest =>
      (scanOptionsAux (OptState.afterFlag g) rest).map (fun l => (f, PyVal.vbool true) :: l)
  | OptState.afterFlag _, t :: _ => Except.error (ParseFailure.unexpected t)
  | OptState.inVector f acc, Token.NUMBER q :: rest =>
      scanOptionsAux (OptState.inVector f (acc ++ [NumVal.nfloat q])) rest
  | OptState.inVector f acc, Token.INTEGER z :: rest =>
      scanOptionsAux (OptState.inVector f (acc ++ [NumVal.nint z])) rest
  | OptState.inVector f acc, Token.RPAREN :: rest =>
      if acc.isEmpty then Except.error (ParseFailure.unexpected Token.RPAREN)
      else (scanOptionsAux OptState.top rest).map (fun l => (f, PyVal.vlist acc) :: l)
  | OptState.inVector _ _, t :: _ => Except.error (ParseFailure.unexpected t)
  | OptState.inVector _ _, [] => Except.error ParseFailure.eof

/-- `GromacsParser.parse` over a token list: the `command` rule demands
`GMX COMMAND` followed by optional options; on success `p_command` builds the
parsed-command dict with the options merged left to right, on any mismatch
the parse fails as a whole with the offending token (or EOF). -/
def parseTokens : List Token → Except ParseFailure ParsedCommand
  | Token.GMX :: Token.COMMAND c :: rest =>
      (scanOptionsAux OptState.top rest).map
        (fun raw => ⟨"gromacs_command", c, buildOptions raw⟩)
  | [] => Except.error ParseFailure.eof
  | [Token.GMX] => Except.error ParseFailure.eof
  | Token.GMX :: t :: _ => Except.error (ParseFailure.unexpected t)
  | t :: _ => Except.error (ParseFailure.unexpected t)

/-! ## Command validator (`GromacsCommandValidator`) -/

/-- `GromacsCommandValidator.COMMAND_FLAGS`. -/
def COMMAND_FLAGS : List (String × List String) :=
  [("pdb2gmx", ["-f", "-o", "-p", "-i", "-n", "-q", "-ff", "-water"]),
   ("editconf", ["-f", "-o", "-n", "-bf", "-box", "-angles", "-d", "-c", "-center"]),
   ("solvate", ["-cp", "-cs", "-o", "-p", "-box", "-radius"]),
   ("grompp", ["-f", "-c", "-r", "-p", "-n", "-o", "-t", "-maxwarn"]),
   ("mdrun", ["-s", "-o", "-x", "-c", "-e", "-g", "-cpi", "-cpo", "-deffnm", "-v", "-nt", "-ntmpi"]),
   ("energy", ["-f", "-o", "-xvg"])]

/-- Python's `'-f' in options` on the options dict. -/
def hasKey (options : List (String × PyVal)) (k : String) : Bool :=
  options.any (fun p => p.1 == k)

/-- The warning appended for a flag outside the command's accepted set. -/
def flagWarn (flag command : String) : String :=
  "Warning: '" ++ flag ++ "' may not be a valid flag for 'gmx " ++ command ++ "'"

/-- Flag-set checking of `GromacsCommandValidator.validate`: only for
commands present in `COMMAND_FLAGS`; one warning per option flag outside the
accepted set, in options order. -/
def flagWarnings (command : String) (options : List (String × PyVal)) : List String :=
  match COMMAND_FLAGS.find? (fun p => p.1 == command) with
  | some kv =>
      (options.map Prod.fst).filterMap
        (fun f => if kv.2.contains f then none else some (flagWarn f command))
  | none => []

/-- Command-specific required-flag checking of
`GromacsCommandValidator.validate` (the `if command == ...` chain). -/
def requiredWarnings (command : String) (options : List (String × PyVal)) : List String :=
  if command = "pdb2gmx" then
    if hasKey options "-f" then []
    else ["Warning: 'pdb2gmx' typically requires -f (input PDB file)"]
  else if command = "grompp" then
    (if hasKey options "-f" then [] else ["Warning: 'grompp' requires -f (MDP file)"]) ++
    (if hasKey options "-c" then [] else ["Warning: 'grompp' requires -c (coordinate file)"]) ++
    (if hasKey options "-p" then [] else ["Warning: 'grompp' requires -p (topology file)"])
  else if command = "mdrun" then
    if hasKey options "-s" || hasKey options "-deffnm" then []
    else ["Warning: 'mdrun' requires -s (TPR file) or -deffnm"]
  else []

/-- `GromacsCommandValidator.validate`: rejects anything that is not a
`gromacs_command` record with a single warning; otherwise collects the flag
warnings then the required-flag warnings and returns
`(len(warnings) == 0 or all('Warning' in w for w in warnings), warnings)`. -/
def GromacsCommandValidator_validate (pc : ParsedCommand) : Bool × List String :=
  if pc.type = "gromacs_command" then
    let warnings := flagWarnings pc.command pc.options ++ requiredWarnings pc.command pc.options
    ((warnings.length == 0 || warnings.all (fun w => strContains w "Warning")), warnings)
  else (false, ["Not a valid GROMACS command"])

/-- The value returned by `parse_gromacs_command`: the parsed command dict,
optionally extended with the `'validation'` entry. -/
structure CommandResult where
  cmd : ParsedCommand
  validation : Option (Bool × List String)
deriving DecidableEq

/-- Top-level `parse_gromacs_command(command_string, validate)`: `None` when
parsing fails, otherwise the parsed command, with the validator's verdict
attached when `validate` is true. -/
def parse_gromacs_command (s : String) (validate : Bool) : Option CommandResult :=
  match parseTokens (tokenize s) with
  | Except.ok pc =>
      some ⟨pc, if validate then some (GromacsCommandValidator_validate pc) else none⟩
  | Except.error _ => none

/-! ## Sequence validator (`validate_gromacs_sequence`) -/

/-- One entry of `required_steps`: a stage display name and keyword list. -/
structure Stage where
  name : String
  keywords : List String
deriving DecidableEq

/-- `required_steps`: the five canonical pipeline stages, in fixed order. -/
def required_steps : List Stage :=
  [⟨"Generate a GROMACS topology", ["pdb2gmx", "topology", "forcefield"]⟩,
   ⟨"Edit the configuration", ["editconf", "box", "periodic"]⟩,
   ⟨"Solvate the protein", ["solvate", "water"]⟩,
   ⟨"Generate mdrun input file", ["grompp", "mdp"]⟩,
   ⟨"Run the simulation", ["mdrun", "simulation"]⟩]

/-- `any(keyword in command for keyword in step_keywords)` applied to
`command_list[j].lower()`. -/
def stageMatches (st : Stage) (cmd : String) : Bool :=
  st.keywords.any (fun kw => strContains (lowerStr cmd) kw)

/-- The inner `for j in range(last_step_found_idx + 1, len(command_list))`
loop: the absolute index of the first command at position `start` or later
matching the stage, if any. -/
def findMatchFrom (st : Stage) : List String → Nat → Option Nat
  | [], _ => none
  | c :: cs, 0 =>
      if stageMatches st c then some 0
      else (findMatchFrom st cs 0).map (· + 1)
  | _ :: cs, n + 1 => (findMatchFrom st cs n).map (· + 1)

/-- Outcome of `validate_gromacs_sequence`:
`valid` is `(True, "All GROMACS steps are present and in the correct order.")`;
`missing name kw last found` is `(False, ...)` with the diagnostic f-string
interpolating exactly the missing step's name, its first keyword
(`step_keywords[0]`), the last matched step (`identified_steps_in_order[-1]`)
and the list of steps matched so far; `incomplete` is the unreachable final
`(False, "Not all required GROMACS steps were identified ...")` branch; and
`indexError` is the uncaught `IndexError` raised by
`identified_steps_in_order[-1]` inside the f-string when no step has been
matched yet. -/
inductive SeqResult where
  | valid : SeqResult
  | missing : String → String → String → List String → SeqResult
  | incomplete : SeqResult
  | indexError : SeqResult
deriving DecidableEq

/-- The main loop of `validate_gromacs_sequence` over the remaining stages,
carrying `last_step_found_idx + 1` and `identified_steps_in_order`. -/
def seqGo (cmds : List String) : List Stage → Nat → List String → SeqResult
  | [], _, ids =>
      if ids.length = required_steps.length then SeqResult.valid
      else SeqResult.incomplete
  | st :: rest, start, ids =>
      match findMatchFrom st cmds start with
      | some j => seqGo cmds rest (j + 1) (ids ++ [st.name])
      | none =>
          match ids.getLast? with
          | some last => SeqResult.missing st.name (st.keywords.headD "") last ids
          | none => SeqResult.indexError

/-- `validate_gromacs_sequence(command_list)`. -/
def validate_gromacs_sequence (cmds : List String) : SeqResult :=
  seqGo cmds required_steps 0 []

/-- Scenario 6 of the spec: the correctly ordered five-command pipeline. -/
def scenario6 : List String :=
  ["gmx pdb2gmx -f a.pdb", "gmx editconf -f a.gro", "gmx solvate -cp a.gro",
   "gmx grompp -f a.mdp", "gmx mdrun -deffnm a"]

/-- Scenario 5 of the spec: the pipeline with `editconf` and `solvate`
swapped. -/
def scenario5 : List String :=
  ["gmx pdb2gmx -f a.pdb", "gmx solvate -cp a.gro", "gmx editconf -f a.gro",
   "gmx grompp -f a.mdp", "gmx mdrun -deffnm a"]

/-! ## Specification-side predicates for the claims -/

/-- Stage `st` is realised at index `i` of the command list. -/
def StageAt (cmds : List String) (st : Stage) (i : Nat) : Prop :=
  ∃ h : i < cmds.length, stageMatches st (cmds.get ⟨i, h⟩) = true

/-- The claim's subsequence property: the five stages can be matched, in
their fixed order, to strictly increasing indices of the command list, a
command matching a stage iff its lowercased text contains some keyword of
the stage's keyword set (`stageMatches`). -/
def canMatchInOrder (cmds : List String) : Prop :=
  ∃ idxs : List Nat, List.Chain' (· < ·) idxs ∧
    List.Forall₂ (StageAt cmds) required_steps idxs

/-- Greedy matchability of a stage list starting at position `start`:
mirrors the scan's invariant and is proved equivalent both to the greedy
scan's success and to `canMatchInOrder`. -/
inductive MatchSeq (cmds : List String) : List Stage → Nat → Prop where
  | nil (start : Nat) : MatchSeq cmds [] start
  | cons {st : Stage} {rest : List Stage} {start j : Nat} (hle : start ≤ j)
      (hlt : j < cmds.length) (hm : stageMatches st (cmds.get ⟨j, hlt⟩) = true)
      (htail : MatchSeq cmds rest (j + 1)) : MatchSeq cmds (st :: rest) start

/-- Token classes that can begin a `value` in the grammar. -/
def startsValue : Token → Bool
  | Token.FILENAME _ => true
  | Token.STRING _ => true
  | Token.NUMBER _ => true
  | Token.INTEGER _ => true
  | Token.LPAREN => true
  | _ => false

/-- Whether a token is accepted by `p_number_value`. -/
def isNumTok : Token → Bool
  | Token.NUMBER _ => true
  | Token.INTEGER _ => true
  | _ => false

/-- The `p_number_value` semantic value of a number token. -/
def numVal : Token → NumVal
  | Token.NUMBER q => NumVal.nfloat q
  | Token.INTEGER z => NumVal.nint z
  | _ => NumVal.nint 0

/-! ## Lemmas on the greedy forward scan -/

theorem findMatchFrom_bound {st : Stage} {l : List String} {n j : Nat}
    (h : findMatchFrom st l n = some j) :
    n ≤ j ∧ ∃ hj : j < l.length, stageMatches st (l.get ⟨j, hj⟩) = true := by
  induction l generalizing n j with
  | nil => simp [findMatchFrom] at h
  | cons c cs ih =>
    cases n with
    | zero =>
      by_cases hm : stageMatches st c = true
      · rw [findMatchFrom, if_pos hm] at h
        cases h
        exact ⟨Nat.le_refl 0, Nat.succ_pos _, hm⟩
      · rw [findMatchFrom, if_neg hm] at h
        rcases Option.map_eq_some'.mp h with ⟨j', hj', rfl⟩
        rcases ih hj' with ⟨-, hlt, hmm⟩
        exact ⟨Nat.zero_le _, Nat.succ_lt_succ hlt, hmm⟩
    | succ n' =>
      rw [findMatchFrom] at h
      rcases Option.map_eq_some'.mp h with ⟨j', hj', rfl⟩
      rcases ih hj' with ⟨hle, hlt, hmm⟩
      exact ⟨Nat.succ_le_succ hle, Nat.succ_lt_succ hlt, hmm⟩

theorem findMatchFrom_min {st : Stage} {l : List String} {n j : Nat}
    (h : findMatchFrom st l n = some j) :
    ∀ k (hk : k < l.length), n ≤ k → k < j → stageMatches st (l.get ⟨k, hk⟩) = false := by
  induction l generalizing n j with
  | nil => simp [findMatchFrom] at h
  | cons c cs ih =>
    cases n with
    | zero =>
      by_cases hm : stageMatches st c = true
      · rw [findMatchFrom, if_pos hm] at h
        cases h
        intro k hk _ hkj
        exact absurd hkj (Nat.not_lt_zero k)
      · rw [findMatchFrom, if_neg hm] at h
        rcases Option.map_eq_some'.mp h with ⟨j', hj', rfl⟩
        intro k hk _ hkj
        cases k with
        | zero => simpa using hm
        | succ k' =>
          exact ih hj' k' (Nat.lt_of_succ_lt_succ hk) (Nat.zero_le _)
            (Nat.lt_of_succ_lt_succ hkj)
    | succ n' =>
      rw [findMatchFrom] at h
      rcases Option.map_eq_some'.mp h with ⟨j', hj', rfl⟩
      intro k hk hnk hkj
      cases k with
      | zero => exact absurd hnk (by omega)
      | succ k' =>
        exact ih hj' k' (Nat.lt_of_succ_lt_succ hk) (Nat.le_of_succ_le_succ hnk)
          (Nat.lt_of_succ_lt_succ hkj)

theorem findMatchFrom_none {st : Stage} {l : List String} {n : Nat}
    (h : findMatchFrom st l n = none) :
    ∀ k (hk : k < l.length), n ≤ k → stageMatches st (l.get ⟨k, hk⟩) = false := by
  induction l generalizing n with
  | nil => intro k hk; simp at hk
  | cons c cs ih =>
    cases n with
    | zero =>
      by_cases hm : stageMatches st c = true
      · rw [findMatchFrom, if_pos hm] at h; cases h
      · rw [findMatchFrom, if_neg hm] at h
        have h' := Option.map_eq_none'.mp h
        intro k hk _
        cases k with
        | zero => simpa using hm
        | succ k' => exact ih h' k' (Nat.lt_of_succ_lt_succ hk) (Nat.zero_le _)
    | succ n' =>
      rw [findMatchFrom] at h
      have h' := Option.map_eq_none'.mp h
      intro k hk hnk
      cases k with
      | zero => exact absurd hnk (by omega)
      | succ k' => exact ih h' k' (Nat.lt_of_succ_lt_succ hk) (Nat.le_of_succ_le_succ hnk)

theorem MatchSeq.mono {cmds : List String} {stages : List Stage} {n m : Nat}
    (h : MatchSeq cmds stages n) (hmn : m ≤ n) : MatchSeq cmds stages m := by
  cases h with
  | nil => exact MatchSeq.nil m
  | cons hle hlt hm htail => exact MatchSeq.cons (Nat.le_trans hmn hle) hlt hm htail

theorem seqGo_valid_iff (cmds : List String) :
    ∀ (stages : List Stage) (start : Nat) (ids : List String),
      ids.length + stages.length = required_steps.length →
      (seqGo cmds stages start ids = SeqResult.valid ↔ MatchSeq cmds stages start) := by
  intro stages
  induction stages with
  | nil =>
    intro start ids hlen
    have hlen' : ids.length = required_steps.length := by simpa using hlen
    exact iff_of_true (by simp [seqGo, hlen']) (MatchSeq.nil start)
  | cons st rest ih =>
    intro start ids hlen
    cases hf : findMatchFrom st cmds start with
    | some j =>
      have hlen' : (ids ++ [st.name]).length + rest.length = required_steps.length := by
        simp only [List.length_append, List.length_cons, List.length_nil] at hlen ⊢
        omega
      have hgo : seqGo cmds (st :: rest) start ids = seqGo cmds rest (j + 1) (ids ++ [st.name]) := by
        simp [seqGo, hf]
      rw [hgo, ih (j + 1) (ids ++ [st.name]) hlen']
      constructor
      · intro htail
        rcases findMatchFrom_bound hf with ⟨hle, hlt, hm⟩
        exact MatchSeq.cons hle hlt hm htail
      · intro hms
        cases hms with
        | cons hle' hlt' hm' htail' =>
          rename_i j'
          have hjj' : j ≤ j' := by
            by_contra hlt2
            push_neg at hlt2
            have hfalse := findMatchFrom_min hf j' hlt' hle' hlt2
            rw [hm'] at hfalse
            cases hfalse
          exact htail'.mono (Nat.succ_le_succ hjj')
    | none =>
      apply iff_of_false
      · cases hgl : ids.getLast? <;> simp [seqGo, hf, hgl]
      · intro hms
        cases hms with
        | cons hle' hlt' hm' _ =>
          have hfalse := findMatchFrom_none hf _ hlt' hle'
          rw [hm'] at hfalse
          cases hfalse

theorem matchSeq_iff_exists (cmds : List String) :
    ∀ (stages : List Stage) (n : Nat),
      MatchSeq cmds stages n ↔
        ∃ idxs : List Nat, (∀ i ∈ idxs, n ≤ i) ∧ List.Pairwise (· < ·) idxs ∧
          List.Forall₂ (StageAt cmds) stages idxs := by
  intro stages
  induction stages with
  | nil =>
    intro n
    constructor
    · intro _
      exact ⟨[], by simp, List.Pairwise.nil, List.Forall₂.nil⟩
    · intro _
      exact MatchSeq.nil n
  | cons st rest ih =>
    intro n
    constructor
    · intro h
      cases h with
      | cons hle hlt hm htail =>
        rename_i j
        rcases (ih (j + 1)).mp htail with ⟨idxs, hge, hpw, hf2⟩
        refine ⟨j :: idxs, ?_, ?_, List.Forall₂.cons ⟨hlt, hm⟩ hf2⟩
        · intro i hi
          rcases List.mem_cons.mp hi with rfl | hi'
          · exact hle
          · exact Nat.le_trans hle (Nat.le_trans (Nat.le_succ j) (hge i hi'))
        · exact List.Pairwise.cons (fun i hi => Nat.lt_of_succ_le (hge i hi)) hpw
    · rintro ⟨idxs, hge, hpw, hf2⟩
      cases hf2 with
      | cons hst hf2' =>
        rename_i j idxs'
        rcases hst with ⟨hlt, hm⟩
        rcases List.pairwise_cons.mp hpw with ⟨hj, hpw'⟩
        refine MatchSeq.cons (hge j (List.mem_cons_self j idxs')) hlt hm ?_
        exact (ih (j + 1)).mpr
          ⟨idxs', fun i hi => Nat.succ_le_of_lt (hj i hi), hpw', hf2'⟩

theorem canMatchInOrder_iff (cmds : List String) :
    canMatchInOrder cmds ↔ MatchSeq cmds required_steps 0 := by
  rw [matchSeq_iff_exists]
  unfold canMatchInOrder
  constructor
  · rintro ⟨idxs, hch, hf2⟩
    exact ⟨idxs, fun i _ => Nat.zero_le i, List.chain'_iff_pairwise.mp hch, hf2⟩
  · rintro ⟨idxs, -, hpw, hf2⟩
    exact ⟨idxs, List.chain'_iff_pairwise.mpr hpw, hf2⟩

theorem matchSeq_length {cmds : List String} :
    ∀ {stages : List Stage} {n : Nat}, MatchSeq cmds stages n →
      stages = [] ∨ n + stages.length ≤ cmds.length := by
  intro stages
  induction stages with
  | nil => intro n _; exact Or.inl rfl
  | cons st rest ih =>
    intro n h
    cases h with
    | cons hle hlt hm htail =>
      rename_i j
      right
      rcases ih htail with rfl | hrest
      · simp only [List.length_cons, List.length_nil]
        omega
      · simp only [List.length_cons] at hrest ⊢
        omega

/-! ## Claims C1, C2, C3 (sequence validator) -/

/-- C1: `validate_gromacs_sequence` passes exactly when the five pipeline
stages can be matched, in their fixed order, to strictly increasing indices
of the command list, where a command matches a stage iff its lowercased text
contains some keyword of the stage's keyword set (`canMatchInOrder`); in
particular the five-command sequence of scenario 6 passes, and no list of
fewer than five commands can pass. -/
theorem claim_C1 :
    (∀ cmds : List String,
        validate_gromacs_sequence cmds = SeqResult.valid ↔ canMatchInOrder cmds)
    ∧ validate_gromacs_sequence scenario6 = SeqResult.valid
    ∧ (∀ cmds : List String,
        validate_gromacs_sequence cmds = SeqResult.valid → 5 ≤ cmds.length) := by
  have hiff : ∀ cmds : List String,
      validate_gromacs_sequence cmds = SeqResult.valid ↔ canMatchInOrder cmds := by
    intro cmds
    rw [canMatchInOrder_iff]
    exact seqGo_valid_iff cmds required_steps 0 [] (by simp)
  refine ⟨hiff, by decide, ?_⟩
  intro cmds hv
  have hms : MatchSeq cmds required_steps 0 :=
    (canMatchInOrder_iff cmds).mp ((hiff cmds).mp hv)
  rcases matchSeq_length hms with heq | hle
  · exact absurd heq (by decide)
  · have h5 : required_steps.length = 5 := rfl
    rw [h5] at hle
    omega

/-- Witness for C1's hypothesis-bearing conjunct, applied to scenario 6. -/
theorem claim_C1_witness : 5 ≤ scenario6.length :=
  claim_C1.2.2 scenario6 claim_C1.2.1

/-- C2 counterexample: on the swapped sequence of scenario 5 the greedy scan
matches the box-configuration stage at index 2 (the `editconf` command) and
then fails on the solvation stage, so the diagnostic names "Solvate the
protein" as missing after "Edit the configuration" — not, as the claim
states, the box-configuration stage missing after topology generation. -/
theorem claim_C2_counterexample :
    validate_gromacs_sequence scenario5 =
      SeqResult.missing "Solvate the protein" "solvate" "Edit the configuration"
        ["Generate a GROMACS topology", "Edit the configuration"]
    ∧ ("Solvate the protein" : String) ≠ "Edit the configuration"
    ∧ ("Edit the configuration" : String) ≠ "Generate a GROMACS topology" := by
  exact ⟨by decide, by decide, by decide⟩

/-- C2 (amended): on scenario 5 `validate_gromacs_sequence` fails, and its
diagnostic names the solvation stage ("Solvate the protein", example keyword
"solvate") as the missing stage, following the box-configuration stage
("Edit the configuration") as the last successfully matched one, with
matched-so-far list [topology generation, box configuration]. -/
theorem claim_C2_amended :
    validate_gromacs_sequence scenario5 ≠ SeqResult.valid
    ∧ validate_gromacs_sequence scenario5 =
        SeqResult.missing "Solvate the protein" "solvate" "Edit the configuration"
          ["Generate a GROMACS topology", "Edit the configuration"] := by
  exact ⟨by decide, by decide⟩

/-- C3 (code bug): when no stage has been matched yet — e.g. on the empty
list — the diagnostic f-string evaluates `identified_steps_in_order[-1]` on
an empty list and raises `IndexError`, instead of returning the claimed
`(False, diagnostic)`. -/
theorem claim_C3_bug : validate_gromacs_sequence [] = SeqResult.indexError := rfl

/-! ## Lemmas on the options dict -/

theorem dictGet_cons (p : String × PyVal) (t : List (String × PyVal)) (k : String) :
    dictGet (p :: t) k = if p.1 == k then some p.2 else dictGet t k := by
  by_cases h : (p.1 == k) = true
  · have hf : List.find? (fun q => q.1 == k) (p :: t) = some p :=
      List.find?_cons_of_pos t h
    simp only [dictGet]
    rw [hf, if_pos h]
    rfl
  · have hf : List.find? (fun q => q.1 == k) (p :: t) = List.find? (fun q => q.1 == k) t :=
      List.find?_cons_of_neg t h
    simp only [dictGet]
    rw [hf, if_neg h]

theorem dictGet_map_replace (d : List (String × PyVal)) (k' : String) (v' : PyVal)
    (k : String) :
    dictGet (d.map (fun p => if p.1 == k' then (k', v') else p)) k =
      if k = k' then (if d.any (fun p => p.1 == k') then some v' else none)
      else dictGet d k := by
  induction d with
  | nil => by_cases hk : k = k' <;> simp [dictGet, hk]
  | cons p t ih =>
    by_cases hp : p.1 = k' <;> by_cases hk : k = k'
    · have hpk : p.1 = k := by rw [hp, hk]
      simp [dictGet_cons, hp, hk, hpk]
    · have hk2 : ¬k' = k := fun h => hk h.symm
      have hpk : ¬p.1 = k := by rw [hp]; exact hk2
      simp [dictGet_cons, hp, hk, hk2, hpk] at ih ⊢
      exact ih
    · have hpk : ¬p.1 = k := by rw [hk]; exact hp
      have hpb : (p.1 == k') = false := beq_eq_false_iff_ne.mpr hp
      simp [dictGet_cons, hp, hk, hpk] at ih ⊢
      rw [hpb, Bool.false_or]
      exact ih
    · simp [dictGet_cons, hp, hk] at ih ⊢
      rw [ih]

theorem dictGet_dictInsert (d : List (String × PyVal)) (k' : String) (v' : PyVal)
    (k : String) :
    dictGet (dictInsert d k' v') k = if k = k' then some v' else dictGet d k := by
  unfold dictInsert
  by_cases hany : d.any (fun p => p.1 == k') = true
  · rw [if_pos hany, dictGet_map_replace, hany]
    by_cases hk : k = k' <;> simp [hk]
  · rw [if_neg hany]
    by_cases hk : k = k'
    · have hfd : d.find? (fun p => p.1 == k) = none := by
        rw [List.find?_eq_none]
        intro x hx hxk
        rw [hk] at hxk
        exact hany (List.any_eq_true.mpr ⟨x, hx, hxk⟩)
      have hone : List.find? (fun p => p.1 == k) [(k', v')] = some (k', v') := by
        have h2 : List.find? (fun p => p.1 == k) ((k', v') :: ([] : List (String × PyVal))) =
            some (k', v') :=
          List.find?_cons_of_pos [] (by simp [hk])
        simpa using h2
      simp only [dictGet]
      rw [List.find?_append, hfd, hone, if_pos hk]
      rfl
    · have hnone : List.find? (fun p => p.1 == k) [(k', v')] = none := by
        have h2 : List.find? (fun p => p.1 == k) ((k', v') :: ([] : List (String × PyVal))) =
            List.find? (fun p => p.1 == k) ([] : List (String × PyVal)) :=
          List.find?_cons_of_neg [] (fun h => hk (beq_iff_eq.mp h).symm)
        simpa using h2
      simp only [dictGet]
      rw [List.find?_append, hnone, if_neg hk]
      cases List.find? (fun p => p.1 == k) d <;> rfl

theorem buildOptions_get_aux :
    ∀ (raw d : List (String × PyVal)) (k : String),
      dictGet (raw.foldl (fun d p => dictInsert d p.1 p.2) d) k =
        ((raw.filter (fun p => p.1 == k)).getLast?).elim (dictGet d k) (fun p => some p.2) := by
  intro raw
  induction raw with
  | nil => intro d k; rfl
  | cons hd tl ih =>
    intro d k
    rw [List.foldl_cons, ih, dictGet_dictInsert, List.filter_cons]
    cases hl : tl.filter (fun p => p.1 == k) with
    | nil =>
      by_cases hk : (hd.1 == k) = true
      · have hk' : k = hd.1 := (beq_iff_eq.mp hk).symm
        rw [if_pos hk, if_pos hk']
        rfl
      · have hk' : ¬k = hd.1 := fun h => hk (beq_iff_eq.mpr h.symm)
        rw [if_neg hk, if_neg hk']
    | cons b l' =>
      by_cases hk : (hd.1 == k) = true
      · rw [if_pos hk, List.getLast?_cons_cons, List.getLast?_cons]
        rfl
      · rw [if_neg hk, List.getLast?_cons]
        rfl

theorem buildOptions_get (raw : List (String × PyVal)) (k : String) :
    dictGet (buildOptions raw) k =
      ((raw.filter (fun p => p.1 == k)).getLast?).map Prod.snd := by
  unfold buildOptions
  rw [buildOptions_get_aux]
  cases (raw.filter (fun p => p.1 == k)).getLast? with
  | none => rfl
  | some p => rfl

/-! ## Lemmas on the parser -/

theorem parseTokens_ok_shape {toks : List Token} {pc : ParsedCommand}
    (h : parseTokens toks = Except.ok pc) :
    ∃ c rest raw, toks = Token.GMX :: Token.COMMAND c :: rest ∧
      scanOptionsAux OptState.top rest = Except.ok raw ∧
      pc = ⟨"gromacs_command", c, buildOptions raw⟩ := by
  cases toks with
  | nil => simp [parseTokens] at h
  | cons t1 r1 =>
    cases t1 <;> try simp [parseTokens] at h
    case GMX =>
      cases r1 with
      | nil => simp [parseTokens] at h
      | cons t2 r2 =>
        cases t2 <;> try simp [parseTokens] at h
        case COMMAND c =>
          cases hs : scanOptionsAux OptState.top r2 with
          | ok raw =>
            simp [parseTokens, hs, Except.map] at h
            exact ⟨c, r2, raw, rfl, hs, h.symm⟩
          | error e => simp [parseTokens, hs, Except.map] at h

/-! ## Claim C6 (left-to-right option building, last duplicate wins) -/

/-- C6: for every successfully parsed command the options map is built by
folding the raw `(flag, value)` pairs left to right with Python dict update
(`buildOptions`); looking up a flag in the result yields the value of its
last (rightmost) occurrence; a flag followed by no value token contributes
`Boolean(true)`; concrete: `-maxwarn` given twice keeps the later value, and
a trailing valueless `-v` maps to `Boolean(true)`. -/
theorem claim_C6 :
    (∀ (toks : List Token) (pc : ParsedCommand), parseTokens toks = Except.ok pc →
        ∃ rest raw, toks = Token.GMX :: Token.COMMAND pc.command :: rest ∧
          scanOptionsAux OptState.top rest = Except.ok raw ∧
          pc.options = buildOptions raw)
    ∧ (∀ (raw : List (String × PyVal)) (k : String),
        dictGet (buildOptions raw) k =
          ((raw.filter (fun p => p.1 == k)).getLast?).map Prod.snd)
    ∧ (∀ (f g : String) (rest : List Token),
        scanOptionsAux (OptState.afterFlag f) [] = Except.ok [(f, PyVal.vbool true)]
        ∧ scanOptionsAux (OptState.afterFlag f) (Token.FLAG g :: rest) =
            (scanOptionsAux (OptState.afterFlag g) rest).map
              (fun l => (f, PyVal.vbool true) :: l))
    ∧ (∃ r, parse_gromacs_command "gmx grompp -maxwarn 1 -maxwarn 2" true = some r ∧
        dictGet r.cmd.options "-maxwarn" = some (PyVal.vint 2))
    ∧ (∃ r, parse_gromacs_command "gmx mdrun -v" true = some r ∧
        dictGet r.cmd.options "-v" = some (PyVal.vbool true)) := by
  refine ⟨?_, buildOptions_get, fun f g rest => ⟨rfl, rfl⟩, ?_, ?_⟩
  · intro toks pc h
    rcases parseTokens_ok_shape h with ⟨c, rest, raw, htoks, hscan, hpc⟩
    subst hpc
    exact ⟨rest, raw, htoks, hscan, rfl⟩
  · exact ⟨⟨⟨"gromacs_command", "grompp", [("-maxwarn", PyVal.vint 2)]⟩,
      some (true, ["Warning: 'grompp' requires -f (MDP file)",
        "Warning: 'grompp' requires -c (coordinate file)",
        "Warning: 'grompp' requires -p (topology file)"])⟩, by decide, by decide⟩
  · exact ⟨⟨⟨"gromacs_command", "mdrun", [("-v", PyVal.vbool true)]⟩,
      some (true, ["Warning: 'mdrun' requires -s (TPR file) or -deffnm"])⟩,
      by decide, by decide⟩

/-- Witness for C6's hypothesis-bearing conjunct at a concrete parse. -/
theorem claim_C6_witness :
    ∃ rest raw,
      tokenize "gmx mdrun -v" = Token.GMX ::
        Token.COMMAND (ParsedCommand.mk "gromacs_command" "mdrun"
          [("-v", PyVal.vbool true)]).command :: rest ∧
      scanOptionsAux OptState.top rest = Except.ok raw ∧
      (ParsedCommand.mk "gromacs_command" "mdrun"
          [("-v", PyVal.vbool true)]).options = buildOptions raw :=
  claim_C6.1 (tokenize "gmx mdrun -v")
    ⟨"gromacs_command", "mdrun", [("-v", PyVal.vbool true)]⟩ rfl

/-! ## Lemmas on the command validator's warnings -/

theorem isPrefixOfL_append : ∀ (n h t : List Char), isPrefixOfL n h = true →
    isPrefixOfL n (h ++ t) = true := by
  intro n
  induction n with
  | nil => intro h t _; rfl
  | cons x ns ih =>
    intro h t hp
    cases h with
    | nil => simp [isPrefixOfL] at hp
    | cons y hs =>
      simp only [List.cons_append, isPrefixOfL, Bool.and_eq_true] at hp ⊢
      exact ⟨hp.1, ih hs t hp.2⟩

theorem substrB_of_isPrefixOfL {n h : List Char} (hp : isPrefixOfL n h = true) :
    substrB n h = true := by
  cases h with
  | nil =>
    cases n with
    | nil => rfl
    | cons x ns => simp [isPrefixOfL] at hp
  | cons c t => simp [substrB, hp]

theorem flagWarn_contains (f c : String) : strContains (flagWarn f c) "Warning" = true := by
  unfold flagWarn strContains
  simp only [String.data_append, List.append_assoc]
  exact substrB_of_isPrefixOfL (isPrefixOfL_append _ _ _ (by decide))

theorem flagWarnings_all (c : String) (opts : List (String × PyVal)) :
    ∀ w ∈ flagWarnings c opts, strContains w "Warning" = true := by
  intro w hw
  unfold flagWarnings at hw
  cases hfind : COMMAND_FLAGS.find? (fun p => p.1 == c) with
  | none => simp only [hfind] at hw; simp at hw
  | some kv =>
    simp only [hfind] at hw
    rcases List.mem_filterMap.mp hw with ⟨f, -, heq⟩
    by_cases hcon : kv.2.contains f = true
    · rw [if_pos hcon] at heq; cases heq
    · rw [if_neg hcon] at heq
      cases heq
      exact flagWarn_contains f c

theorem requiredWarnings_all (c : String) (opts : List (String × PyVal)) :
    ∀ w ∈ requiredWarnings c opts, strContains w "Warning" = true := by
  intro w hw
  unfold requiredWarnings at hw
  split_ifs at hw
  all_goals simp at hw
  all_goals (rcases hw with rfl | rfl | rfl) <;> decide

/-! ## Claim C4 (validity verdict) -/

/-- C4: `validate` returns `(False, [single warning])` exactly when the
record's kind is not `gromacs_command` — the only hard-failure path — and
for every `gromacs_command` record the verdict is `True`, because every
warning the validator appends contains the tag `Warning` and the verdict is
`len(warnings) == 0 or all('Warning' in w for w in warnings)`. -/
theorem claim_C4 :
    (∀ pc : ParsedCommand, pc.type ≠ "gromacs_command" →
        GromacsCommandValidator_validate pc = (false, ["Not a valid GROMACS command"]))
    ∧ (∀ pc : ParsedCommand, pc.type = "gromacs_command" →
        (GromacsCommandValidator_validate pc).1 = true) := by
  constructor
  · intro pc h
    unfold GromacsCommandValidator_validate
    rw [if_neg h]
  · intro pc h
    unfold GromacsCommandValidator_validate
    rw [if_pos h]
    have hall : (flagWarnings pc.command pc.options ++
        requiredWarnings pc.command pc.options).all
          (fun w => strContains w "Warning") = true := by
      rw [List.all_eq_true]
      intro w hw
      rcases List.mem_append.mp hw with h1 | h2
      · exact flagWarnings_all _ _ _ h1
      · exact requiredWarnings_all _ _ _ h2
    simp [hall]

/-- Witness for C4 at a non-command record and at a `grompp` record. -/
theorem claim_C4_witness :
    GromacsCommandValidator_validate ⟨"other", "x", []⟩ =
      (false, ["Not a valid GROMACS command"])
    ∧ (GromacsCommandValidator_validate ⟨"gromacs_command", "grompp", []⟩).1 = true :=
  ⟨claim_C4.1 ⟨"other", "x", []⟩ (by decide), claim_C4.2 ⟨"gromacs_command", "grompp", []⟩ rfl⟩

/-! ## Claim C8 (required-flag warnings) -/

theorem flagWarn_lastChar (f c : String) : (flagWarn f c).data.getLast? = some '\'' := by
  unfold flagWarn
  simp only [String.data_append]
  rw [List.getLast?_append_of_ne_nil _ (by decide)]
  decide

theorem flagWarnings_mem_shape {c : String} {opts : List (String × PyVal)} {w : String}
    (hw : w ∈ flagWarnings c opts) : ∃ f, w = flagWarn f c := by
  unfold flagWarnings at hw
  cases hfind : COMMAND_FLAGS.find? (fun p => p.1 == c) with
  | none => simp only [hfind] at hw; simp at hw
  | some kv =>
    simp only [hfind] at hw
    rcases List.mem_filterMap.mp hw with ⟨f, -, heq⟩
    by_cases hcon : kv.2.contains f = true
    · rw [if_pos hcon] at heq; cases heq
    · rw [if_neg hcon] at heq
      cases heq
      exact ⟨f, rfl⟩

theorem not_mem_flagWarnings_of_lastChar {m c : String} {opts : List (String × PyVal)}
    {ch : Char} (hm : m.data.getLast? = some ch) (hch : ch ≠ '\'') :
    m ∉ flagWarnings c opts := by
  intro hmem
  rcases flagWarnings_mem_shape hmem with ⟨f, rfl⟩
  rw [flagWarn_lastChar] at hm
  cases hm
  exact hch rfl

theorem validate_warnings_eq {pc : ParsedCommand} (h : pc.type = "gromacs_command") :
    (GromacsCommandValidator_validate pc).2 =
      flagWarnings pc.command pc.options ++ requiredWarnings pc.command pc.options := by
  unfold GromacsCommandValidator_validate
  rw [if_pos h]

/-- C8: on a `gromacs_command` record, for `grompp` the validator emits one
independent warning for each of `-f`, `-c`, `-p` that is absent; for `mdrun`
it warns iff both `-s` and `-deffnm` are absent (so `gmx mdrun -deffnm run1`
yields no warnings at all); for `pdb2gmx` it warns iff `-f` is absent. -/
theorem claim_C8 :
    (∀ pc : ParsedCommand, pc.type = "gromacs_command" → pc.command = "grompp" →
        (("Warning: 'grompp' requires -f (MDP file)" ∈
            (GromacsCommandValidator_validate pc).2 ↔ hasKey pc.options "-f" = false)
         ∧ ("Warning: 'grompp' requires -c (coordinate file)" ∈
            (GromacsCommandValidator_validate pc).2 ↔ hasKey pc.options "-c" = false)
         ∧ ("Warning: 'grompp' requires -p (topology file)" ∈
            (GromacsCommandValidator_validate pc).2 ↔ hasKey pc.options "-p" = false)))
    ∧ (∀ pc : ParsedCommand, pc.type = "gromacs_command" → pc.command = "mdrun" →
        ("Warning: 'mdrun' requires -s (TPR file) or -deffnm" ∈
            (GromacsCommandValidator_validate pc).2 ↔
          (hasKey pc.options "-s" = false ∧ hasKey pc.options "-deffnm" = false)))
    ∧ (∀ pc : ParsedCommand, pc.type = "gromacs_command" → pc.command = "pdb2gmx" →
        ("Warning: 'pdb2gmx' typically requires -f (input PDB file)" ∈
            (GromacsCommandValidator_validate pc).2 ↔ hasKey pc.options "-f" = false))
    ∧ (∃ r, parse_gromacs_command "gmx mdrun -deffnm run1" true = some r ∧
        r.validation = some (true, [])) := by
  refine ⟨?_, ?_, ?_, ?_⟩
  · intro pc htype hcmd
    have hnf1 : "Warning: 'grompp' requires -f (MDP file)" ∉
        flagWarnings pc.command pc.options :=
      @not_mem_flagWarnings_of_lastChar _ _ _ ')' (by decide) (by decide)
    have hnf2 : "Warning: 'grompp' requires -c (coordinate file)" ∉
        flagWarnings pc.command pc.options :=
      @not_mem_flagWarnings_of_lastChar _ _ _ ')' (by decide) (by decide)
    have hnf3 : "Warning: 'grompp' requires -p (topology file)" ∉
        flagWarnings pc.command pc.options :=
      @not_mem_flagWarnings_of_lastChar _ _ _ ')' (by decide) (by decide)
    rw [validate_warnings_eq htype]
    rw [hcmd] at hnf1 hnf2 hnf3 ⊢
    unfold requiredWarnings
    rw [if_neg (by decide : ¬("grompp" : String) = "pdb2gmx"), if_pos rfl]
    refine ⟨?_, ?_, ?_⟩ <;>
      (rw [List.mem_append]; simp only [hnf1, hnf2, hnf3, false_or]) <;>
      (cases hf : hasKey pc.options "-f" <;> cases hc : hasKey pc.options "-c" <;>
        cases hp : hasKey pc.options "-p" <;> decide)
  · intro pc htype hcmd
    have hnf : "Warning: 'mdrun' requires -s (TPR file) or -deffnm" ∉
        flagWarnings pc.command pc.options :=
      @not_mem_flagWarnings_of_lastChar _ _ _ 'm' (by decide) (by decide)
    rw [validate_warnings_eq htype]
    rw [hcmd] at hnf ⊢
    unfold requiredWarnings
    rw [if_neg (by decide : ¬("mdrun" : String) = "pdb2gmx"),
      if_neg (by decide : ¬("mdrun" : String) = "grompp"), if_pos rfl]
    rw [List.mem_append]
    simp only [hnf, false_or]
    cases hs : hasKey pc.options "-s" <;> cases hd : hasKey pc.options "-deffnm" <;> decide
  · intro pc htype hcmd
    have hnf : "Warning: 'pdb2gmx' typically requires -f (input PDB file)" ∉
        flagWarnings pc.command pc.options :=
      @not_mem_flagWarnings_of_lastChar _ _ _ ')' (by decide) (by decide)
    rw [validate_warnings_eq htype]
    rw [hcmd] at hnf ⊢
    unfold requiredWarnings
    rw [if_pos rfl]
    rw [List.mem_append]
    simp only [hnf, false_or]
    cases hf : hasKey pc.options "-f" <;> decide
  · exact ⟨⟨⟨"gromacs_command", "mdrun", [("-deffnm", PyVal.vstr "run1")]⟩,
      some (true, [])⟩, by decide, by decide⟩

/-- Witness for C8 at a `grompp` record with an empty options dict. -/
theorem claim_C8_witness :
    "Warning: 'grompp' requires -f (MDP file)" ∈
      (GromacsCommandValidator_validate ⟨"gromacs_command", "grompp", []⟩).2 :=
  ((claim_C8.1 ⟨"gromacs_command", "grompp", []⟩ rfl rfl).1).mpr rfl

/-! ## Claim C5 (parsed command names are always known commands) -/

theorem classifyBare_command {w c : String} (h : classifyBare w = Token.COMMAND c) :
    commands.contains c = true := by
  unfold classifyBare at h
  by_cases h1 : (w == "gmx") = true
  · rw [if_pos h1] at h; cases h
  · rw [if_neg h1] at h
    by_cases h2 : commands.contains w = true
    · rw [if_pos h2] at h
      cases h
      exact h2
    · rw [if_neg h2] at h; cases h

theorem t_STRING_command {l : List Char} {c : String} {r : List Char}
    (h : t_STRING l = some (Token.COMMAND c, r)) : commands.contains c = true := by
  unfold t_STRING at h
  split at h
  · cases h
  · split at h
    · split at h
      · simp at h
      · cases h
    · split at h
      · split at h
        · simp at h
        · cases h
      · split at h
        · simp at h
          exact classifyBare_command h.1
        · cases h

theorem lexOne_command {l : List Char} {c : String} {r : List Char}
    (h : lexOne l = some (Token.COMMAND c, r)) : commands.contains c = true := by
  unfold lexOne at h
  cases hf : t_FLAG l with
  | some p => simp only [hf] at h; simp at h
  | none =>
    simp only [hf] at h
    split at h
    · simp at h
    · simp at h
    · cases hfn : t_FILENAME l with
      | some p => simp only [hfn] at h; simp at h
      | none =>
        simp only [hfn] at h
        cases hnum : t_NUMBER l with
        | some p => simp only [hnum] at h; simp at h
        | none =>
          simp only [hnum] at h
          cases hint : t_INTEGER l with
          | some p => simp only [hint] at h; simp at h
          | none =>
            simp only [hint] at h
            exact t_STRING_command h

theorem tokenizeAux_command : ∀ (fuel : Nat) (l : List Char) (c : String),
    Token.COMMAND c ∈ tokenizeAux fuel l → commands.contains c = true := by
  intro fuel
  induction fuel with
  | zero => intro l c h; simp [tokenizeAux] at h
  | succ n ih =>
    intro l c h
    cases l with
    | nil => simp [tokenizeAux] at h
    | cons ch cs =>
      by_cases hws : (ch == ' ' || ch == '\t' || ch == '\n') = true
      · simp only [tokenizeAux] at h
        rw [if_pos hws] at h
        exact ih cs c h
      · simp only [tokenizeAux] at h
        rw [if_neg hws] at h
        cases hlex : lexOne (ch :: cs) with
        | some p =>
          simp only [hlex] at h
          rcases List.mem_cons.mp h with heq | hmem
          · rcases p with ⟨tok, rest⟩
            have heq2 : Token.COMMAND c = tok := heq
            rw [← heq2] at hlex
            exact lexOne_command hlex
          · exact ih _ _ hmem
        | none =>
          simp only [hlex] at h
          exact ih _ _ h

/-- C5: every `ParsedCommand` that parsing constructs has a name in the fixed
known-command set: a bare word outside the set is never reclassified to a
`COMMAND` token by the lexer, and the grammar's `command` rule demands a
`COMMAND` token in second position; a command string whose command word is
unknown therefore fails to parse entirely. -/
theorem claim_C5 :
    (∀ (s : String) (v : Bool) (r : CommandResult),
        parse_gromacs_command s v = some r → commands.contains r.cmd.command = true)
    ∧ (∀ (toks : List Token) (pc : ParsedCommand), parseTokens toks = Except.ok pc →
        ∃ rest, toks = Token.GMX :: Token.COMMAND pc.command :: rest)
    ∧ (∀ (fuel : Nat) (l : List Char) (c : String),
        Token.COMMAND c ∈ tokenizeAux fuel l → commands.contains c = true)
    ∧ parse_gromacs_command "gmx pdbfix -f a.pdb" true = none := by
  have hshape : ∀ (toks : List Token) (pc : ParsedCommand), parseTokens toks = Except.ok pc →
      ∃ rest, toks = Token.GMX :: Token.COMMAND pc.command :: rest := by
    intro toks pc h
    rcases parseTokens_ok_shape h with ⟨c, rest, raw, htoks, -, hpc⟩
    subst hpc
    exact ⟨rest, htoks⟩
  refine ⟨?_, hshape, tokenizeAux_command, by decide⟩
  intro s v r h
  unfold parse_gromacs_command at h
  cases hp : parseTokens (tokenize s) with
  | ok pc =>
    simp only [hp] at h
    rcases hshape _ _ hp with ⟨rest, htoks⟩
    have hmem : Token.COMMAND pc.command ∈ tokenize s := by
      rw [htoks]
      exact List.mem_cons_of_mem _ (List.mem_cons_self _ _)
    have hcon := tokenizeAux_command _ _ _ hmem
    cases h
    exact hcon
  | error e =>
    simp only [hp] at h
    cases h

/-- Witness for C5 at a concrete successful parse. -/
theorem claim_C5_witness : commands.contains "mdrun" = true :=
  claim_C5.1 "gmx mdrun -v" true
    ⟨⟨"gromacs_command", "mdrun", [("-v", PyVal.vbool true)]⟩,
      some (true, ["Warning: 'mdrun' requires -s (TPR file) or -deffnm"])⟩ (by decide)

/-! ## Claim C7 (all-or-nothing parsing, failure payload) -/

/-- C7 counterexample: two inputs failing in different grammar contexts
(after `gmx` a command name is expected; after `gmx pdb2gmx` a flag or end of
input is expected) produce identical parse failures — `p_error` only sees the
offending token — so the failure carries no expected-context description,
contrary to the claim. -/
theorem claim_C7_counterexample :
    parseTokens (tokenize "gmx )") = parseTokens (tokenize "gmx pdb2gmx )")
    ∧ parseTokens (tokenize "gmx )") =
        Except.error (ParseFailure.unexpected Token.RPAREN) :=
  ⟨rfl, rfl⟩

/-- C7 (amended): on any structural mismatch the parse fails as a whole with
a failure that identifies the offending token or an end-of-input marker (but
no expected-context information), and the caller receives no partial
ParsedCommand — `parse_gromacs_command` returns `None`. -/
theorem claim_C7_amended :
    (∀ toks : List Token,
        (∃ pc, parseTokens toks = Except.ok pc)
        ∨ (∃ t, parseTokens toks = Except.error (ParseFailure.unexpected t))
        ∨ parseTokens toks = Except.error ParseFailure.eof)
    ∧ parseTokens (tokenize "gmx editconf -box (2.0 2.0") =
        Except.error ParseFailure.eof
    ∧ parseTokens (tokenize "gmx pdb2gmx -f 2.0 )") =
        Except.error (ParseFailure.unexpected Token.RPAREN)
    ∧ (∀ (s : String) (e : ParseFailure), parseTokens (tokenize s) = Except.error e →
        parse_gromacs_command s true = none) := by
  refine ⟨?_, rfl, rfl, ?_⟩
  · intro toks
    cases h : parseTokens toks with
    | ok pc => exact Or.inl ⟨pc, rfl⟩
    | error e =>
      cases e with
      | unexpected t => exact Or.inr (Or.inl ⟨t, rfl⟩)
      | eof => exact Or.inr (Or.inr rfl)
  · intro s e h
    unfold parse_gromacs_command
    rw [h]

/-- Witness for C7's hypothesis-bearing conjunct. -/
theorem claim_C7_witness : parse_gromacs_command "gmx )" true = none :=
  claim_C7_amended.2.2.2 "gmx )" (ParseFailure.unexpected Token.RPAREN) rfl

/-! ## Claim C9 (vector literals) -/

theorem scanVector_go (f : String) :
    ∀ (nums : List Token) (acc : List NumVal) (rest : List Token),
      (∀ t ∈ nums, isNumTok t = true) → acc ++ nums.map numVal ≠ [] →
      scanOptionsAux (OptState.inVector f acc) (nums ++ Token.RPAREN :: rest) =
        (scanOptionsAux OptState.top rest).map
          (fun l => (f, PyVal.vlist (acc ++ nums.map numVal)) :: l) := by
  intro nums
  induction nums with
  | nil =>
    intro acc rest _ hne
    simp only [List.map_nil, List.append_nil] at hne ⊢
    have hae : acc.isEmpty = false := by
      cases acc with
      | nil => exact absurd rfl hne
      | cons a t => rfl
    simp [scanOptionsAux, hae]
  | cons t ts ih =>
    intro acc rest hnum hne
    have ht := hnum t (List.mem_cons_self t ts)
    cases t with
    | NUMBER q =>
      simp only [List.cons_append, scanOptionsAux, List.append_eq]
      rw [ih (acc ++ [NumVal.nfloat q]) rest
        (fun u hu => hnum u (List.mem_cons_of_mem _ hu)) (by simp)]
      simp [numVal, List.append_assoc]
    | INTEGER z =>
      simp only [List.cons_append, scanOptionsAux, List.append_eq]
      rw [ih (acc ++ [NumVal.nint z]) rest
        (fun u hu => hnum u (List.mem_cons_of_mem _ hu)) (by simp)]
      simp [numVal, List.append_assoc]
    | GMX => simp [isNumTok] at ht
    | COMMAND c => simp [isNumTok] at ht
    | FLAG s => simp [isNumTok] at ht
    | FILENAME s => simp [isNumTok] at ht
    | STRING s => simp [isNumTok] at ht
    | LPAREN => simp [isNumTok] at ht
    | RPAREN => simp [isNumTok] at ht

/-- C9: a vector literal — `(` followed by one or more number tokens and `)`
— parses to the ordered list of its members' numeric values, preserving
input order, including mixed integer and float members; concretely,
`gmx editconf -box (2.0 2.0 2.0)` maps `-box` to `[2.0, 2.0, 2.0]`. -/
theorem claim_C9 :
    (∀ (f : String) (nums rest : List Token),
        nums ≠ [] → (∀ t ∈ nums, isNumTok t = true) →
        scanOptionsAux (OptState.afterFlag f)
            (Token.LPAREN :: (nums ++ Token.RPAREN :: rest)) =
          (scanOptionsAux OptState.top rest).map
            (fun l => (f, PyVal.vlist (nums.map numVal)) :: l))
    ∧ (∃ r, parse_gromacs_command "gmx editconf -box (2.0 2.0 2.0)" true = some r ∧
        dictGet r.cmd.options "-box" = some (PyVal.vlist
          [NumVal.nfloat 2, NumVal.nfloat 2, NumVal.nfloat 2])) := by
  constructor
  · intro f nums rest hne hnum
    have hstep : scanOptionsAux (OptState.afterFlag f)
        (Token.LPAREN :: (nums ++ Token.RPAREN :: rest)) =
        scanOptionsAux (OptState.inVector f []) (nums ++ Token.RPAREN :: rest) := rfl
    rw [hstep, scanVector_go f nums [] rest hnum (by simpa using hne)]
    simp
  · exact ⟨⟨⟨"gromacs_command", "editconf",
      [("-box", PyVal.vlist [NumVal.nfloat 2, NumVal.nfloat 2, NumVal.nfloat 2])]⟩,
      some (true, [])⟩, by decide, by decide⟩

/-- Witness for C9 at a concrete mixed float/integer vector. -/
theorem claim_C9_witness :
    scanOptionsAux (OptState.afterFlag "-box")
        (Token.LPAREN :: ([Token.NUMBER 2, Token.INTEGER 3] ++
          Token.RPAREN :: ([] : List Token))) =
      (scanOptionsAux OptState.top []).map
        (fun l => ("-box",
          PyVal.vlist ([Token.NUMBER 2, Token.INTEGER 3].map numVal)) :: l) :=
  claim_C9.1 "-box" [Token.NUMBER 2, Token.INTEGER 3] [] (by decide) (by decide)

/-! ## Claim C10 (reserved bare words as option values) -/

/-- C10: a bare option value equal to `gmx` or to a member of the known
command set is reclassified by the lexer into a `GMX`/`COMMAND` token, which
the grammar's `value` rule does not accept, so the whole parse fails (e.g.
`gmx mdrun -deffnm energy` yields no ParsedCommand); the same word in quotes
remains a generic string token and parses as an ordinary text value. -/
theorem claim_C10 :
    (∀ w : String, (w = "gmx" ∨ commands.contains w = true) →
        ∀ (f : String) (rest : List Token),
          scanOptionsAux (OptState.afterFlag f) (classifyBare w :: rest) =
            Except.error (ParseFailure.unexpected (classifyBare w)))
    ∧ parse_gromacs_command "gmx mdrun -deffnm energy" true = none
    ∧ (∃ r, parse_gromacs_command "gmx mdrun -deffnm \"energy\"" true = some r ∧
        dictGet r.cmd.options "-deffnm" = some (PyVal.vstr "energy"))
    ∧ (∀ w : String, classifyBare w = Token.STRING w →
        commands.contains w = false ∧ w ≠ "gmx") := by
  refine ⟨?_, by decide, ?_, ?_⟩
  · intro w hw f rest
    rcases hw with rfl | hcon
    · have h1 : classifyBare "gmx" = Token.GMX := rfl
      rw [h1]
      rfl
    · have hng : ¬(w == "gmx") = true := by
        intro hg
        have hweq : w = "gmx" := beq_iff_eq.mp hg
        subst hweq
        exact absurd hcon (by decide)
      have h1 : classifyBare w = Token.COMMAND w := by
        unfold classifyBare
        rw [if_neg hng, if_pos hcon]
      rw [h1]
      rfl
  · exact ⟨⟨⟨"gromacs_command", "mdrun", [("-deffnm", PyVal.vstr "energy")]⟩,
      some (true, [])⟩, by decide, by decide⟩
  · intro w h
    unfold classifyBare at h
    by_cases h1 : (w == "gmx") = true
    · rw [if_pos h1] at h; cases h
    · rw [if_neg h1] at h
      by_cases h2 : commands.contains w = true
      · rw [if_pos h2] at h; cases h
      · rw [if_neg h2] at h
        refine ⟨by simpa using h2, fun heq => h1 (beq_iff_eq.mpr heq)⟩

/-- Witness for C10 at the reserved word `energy` used as a bare value. -/
theorem claim_C10_witness :
    scanOptionsAux (OptState.afterFlag "-deffnm")
        (classifyBare "energy" :: ([] : List Token)) =
      Except.error (ParseFailure.unexpected (classifyBare "energy")) :=
  claim_C10.1 "energy" (Or.inr (by decide)) "-deffnm" []
